import Mathlib

/- Verification of core behaviors of the ai-dev-team pipeline in this
   repository: the budgeted Gemini call adapter (src/utils/gemini.js), the
   LangGraph state reducers (state.js), and the blueprint cross-validator
   (blueprintValidator.js).  JavaScript values are embedded shallowly:
   absent/undefined fields become Option, JS numbers used for token costs
   become ℚ (the claims under study do not depend on binary float rounding),
   and the nondeterministic external service is an environment function
   giving each delegated call attempt's outcome. -/

set_option autoImplicit false

namespace Gemini

/-- gemini.js line 59: const MAX_RETRIES = 3. -/
def MAX_RETRIES : Nat := 3

/-- Token accounting of one successful attempt (gemini.js lines 74-79). -/
structure TokenInfo where
  input : Nat
  output : Nat
  cost : ℚ
deriving Repr, DecidableEq

/-- JS idiom `measured || estimate` on an optional token count: both
    undefined and 0 fall back to the estimate (gemini.js lines 75-76). -/
def orEstimate (measured : Option Nat) (estimate : Nat) : Nat :=
  match measured with
  | some n => if n = 0 then estimate else n
  | none => estimate

/-- Math.ceil(len / 4) on a natural length (gemini.js lines 75-76). -/
def jsCeilDiv4 (len : Nat) : Nat := (len + 3) / 4

/-- Token usage of one successful response: measured counts from usage
    metadata when present and nonzero, otherwise size estimates; cost per
    gemini.js line 79 ($0.15/1M input, $0.60/1M output). -/
def tokensOf (promptLen : Nat) (raw : String) (pt ct : Option Nat) : TokenInfo :=
  let inputTokens := orEstimate pt (jsCeilDiv4 promptLen)
  let outputTokens := orEstimate ct (jsCeilDiv4 raw.length)
  { input := inputTokens
    output := outputTokens
    cost := (inputTokens : ℚ) / 1000000 * 0.15 + (outputTokens : ℚ) / 1000000 * 0.60 }

/-- Outcome of one delegated generateContent call as seen by the adapter.
    channelErr models the call throwing, with budgetMsg recording whether
    its message contains TOKEN_BUDGET_EXCEEDED (checked at line 106); ok
    models a response with raw text (response.text || ""), optional usage
    metadata counts, and the result of JSON-parsing the cleaned text,
    modelled as an oracle value since the external service is opaque. -/
inductive AttemptResult where
  | channelErr (budgetMsg : Bool) (msg : String)
  | ok (raw : String) (pt ct : Option Nat) (parsed : Option String)
deriving Repr, DecidableEq

/-- The distinct terminal failure conditions of callGemini.  budgetExceeded
    is the pre-loop guard error of lines 50-54; channel is a rethrown
    delegated-call error; parseFailed is the JSON_PARSE_FAILED error thrown
    after MAX_RETRIES parse failures (line 92); nullError stands for the
    unreachable end-of-loop `throw lastError` with lastError still null. -/
inductive ErrKind where
  | budgetExceeded (currentCost tokenBudget : ℚ)
  | channel (budgetMsg : Bool) (msg : String)
  | parseFailed
  | nullError
deriving Repr, DecidableEq

/-- Result of a callGemini invocation: either the parsed value, raw text and
    token info of lines 98-102, or a thrown error. -/
inductive Outcome where
  | success (parsed : String) (raw : String) (tokens : TokenInfo)
  | failure (e : ErrKind)
deriving Repr, DecidableEq

/-- Adapter outcome together with how many delegated calls were issued. -/
structure RunResult where
  outcome : Outcome
  callsIssued : Nat
deriving Repr, DecidableEq

/-- The retry loop of gemini.js lines 61-114, for attempt = attempt..MAX_RETRIES:
    a parseable response returns success; a parse failure retries unless at
    the ceiling, where JSON_PARSE_FAILED is thrown; a channel error whose
    message carries TOKEN_BUDGET_EXCEEDED is rethrown at once (line 106),
    any other channel error retries after backoff unless at the ceiling.
    The environment env gives the outcome of the delegated call issued on
    each attempt number. -/
def callLoop (promptLen : Nat) (env : Nat → AttemptResult)
    (lastError : Option ErrKind) (attempt : Nat) : RunResult :=
  if h : attempt ≤ MAX_RETRIES then
    match env attempt with
    | .ok raw pt ct parsed =>
      match parsed with
      | some v => ⟨.success v raw (tokensOf promptLen raw pt ct), attempt⟩
      | none =>
        if attempt = MAX_RETRIES then ⟨.failure .parseFailed, attempt⟩
        else callLoop promptLen env (some .parseFailed) (attempt + 1)
    | .channelErr budgetMsg msg =>
      if budgetMsg then ⟨.failure (.channel true msg), attempt⟩
      else if attempt = MAX_RETRIES then ⟨.failure (.channel false msg), attempt⟩
      else callLoop promptLen env (some (.channel false msg)) (attempt + 1)
  else ⟨.failure (lastError.getD .nullError), attempt - 1⟩
termination_by MAX_RETRIES + 1 - attempt
decreasing_by all_goals omega

/-- The fixed prompt assembly of gemini.js line 56. -/
def fullPrompt (systemPrompt userPrompt : String) : String :=
  systemPrompt ++ "\n\n---\n\nINPUT:\n" ++ userPrompt ++
    "\n\n---\n\nIMPORTANT: Respond with ONLY valid JSON. No markdown, no backticks, no explanation outside JSON."

/-- callGemini (gemini.js lines 38-115), with the client assumed
    initialized: the budget guard of lines 49-54 fires before any delegated
    call; otherwise the retry loop runs from attempt 1. -/
def callGemini (systemPrompt userPrompt : String) (currentCost tokenBudget : ℚ)
    (env : Nat → AttemptResult) : RunResult :=
  if currentCost ≥ tokenBudget then
    ⟨.failure (.budgetExceeded currentCost tokenBudget), 0⟩
  else
    callLoop (fullPrompt systemPrompt userPrompt).length env none 1

/-- One entry of tokenUsage.newCalls (gemini.js lines 125-130). -/
structure CallRecord where
  agent : String
  inputTokens : Nat
  outputTokens : Nat
  timestamp : Nat
deriving Repr, DecidableEq

/-- The usage delta an agent returns to the tokenUsage reducer. -/
structure TokenDelta where
  newCalls : List CallRecord
  addedInput : Nat
  addedOutput : Nat
  addedCost : ℚ
deriving Repr, DecidableEq

/-- makeTokenDelta (gemini.js lines 123-135); Date.now() is passed in. -/
def makeTokenDelta (agentName : String) (now : Nat) (tokens : TokenInfo) : TokenDelta :=
  { newCalls := [{ agent := agentName, inputTokens := tokens.input,
                   outputTokens := tokens.output, timestamp := now }]
    addedInput := tokens.input
    addedOutput := tokens.output
    addedCost := tokens.cost }

/-- The usage deltas recorded for one adapter invocation: callers build
    exactly one delta from result.tokens on success (the pattern of every
    agent node, e.g. plannerAgent), and the adapter throws otherwise, so
    a failed invocation records none. -/
def usageDeltasOf (agentName : String) (now : Nat) (r : RunResult) : List TokenDelta :=
  match r.outcome with
  | .success _ _ t => [makeTokenDelta agentName now t]
  | .failure _ => []

/-- An attempt outcome the retry loop recovers from and retries past: a
    non-budget channel error, or a response whose JSON parse failed. -/
def failedAttempt : AttemptResult → Bool
  | .channelErr budgetMsg _ => !budgetMsg
  | .ok _ _ _ parsed => parsed.isNone

end Gemini

namespace StateStore

/-- A fileRegistry entry.  The reducer reads only .path; all other per-file
    data the agents store is opaque to it and collapsed into info. -/
structure FileEntry where
  path : String
  info : String
deriving Repr, DecidableEq

/-- state.js lines 32-35: the userRequirement Replace reducer
    (existing, incoming) => incoming ?? "" — the existing value is unused. -/
def userRequirementReducer (_existing : String) (incoming : Option String) : String :=
  match incoming with
  | some y => y
  | none => ""

/-- The last non-null update in a sequence of partial updates. -/
def lastNonNull {α : Type} (updates : List (Option α)) : Option α :=
  (updates.filterMap id).getLast?

/-- JS Map.set on an insertion-ordered association list: update the value
    in place when the key is present, else append the new pair. -/
def jsMapSet (m : List (String × FileEntry)) (k : String) (v : FileEntry) :
    List (String × FileEntry) :=
  if m.any (fun q => q.1 == k) then
    m.map (fun q => if q.1 == k then (q.1, v) else q)
  else m ++ [(k, v)]

/-- new Map(pairs): sequential Map.set of each pair into an empty map. -/
def jsMapOfPairs (l : List (String × FileEntry)) : List (String × FileEntry) :=
  l.foldl (fun m q => jsMapSet m q.1 q.2) []

/-- state.js lines 105-119: the fileRegistry Accumulate reducer.  A none
    incoming covers JS null/undefined and any non-array value, for which
    the code returns existing unchanged; an array incoming is upserted
    path-by-path into a Map rebuilt from the existing entries, and the
    Map's values (in key insertion order) are returned. -/
def fileRegistryReducer (existing : List FileEntry) (incoming : Option (List FileEntry)) :
    List FileEntry :=
  match incoming with
  | none => existing
  | some entries =>
    let m0 := jsMapOfPairs (existing.map (fun f => (f.path, f)))
    let m1 := entries.foldl (fun m e => jsMapSet m e.path e) m0
    m1.map Prod.snd

/-- Upsert of one entry keyed by its path (the per-entry step of the
    fileRegistry reducer). -/
def regUpsert (m : List (String × FileEntry)) (e : FileEntry) : List (String × FileEntry) :=
  jsMapSet m e.path e

/-- The canonical keyed map built by upserting a flat entry sequence. -/
def canon (flat : List FileEntry) : List (String × FileEntry) :=
  flat.foldl regUpsert []

/-- The keys of a list in order of first appearance, one occurrence each. -/
def firstOccurrences : List String → List String
  | [] => []
  | a :: l => a :: firstOccurrences (l.filter (fun b => !(b == a)))
termination_by l => l.length
decreasing_by
  have := List.length_filter_le (fun b => !(b == a)) l
  simp only [List.length_cons]
  omega

/-- A whole run of fileRegistry array updates applied from the default
    empty registry. -/
def applyAll (updates : List (List FileEntry)) : List FileEntry :=
  updates.foldl (fun s u => fileRegistryReducer s (some u)) []

end StateStore

namespace Validator

/-- ASCII lowercasing, as String.prototype.toLowerCase on the ASCII names
    occurring in blueprints. -/
def lower (s : String) : String := String.mk (s.data.map Char.toLower)

/-- name.replace(slash-s-end regex, "") : drop one trailing "s". -/
def stripTrailingS (s : String) : String :=
  if s.data.getLast? == some 's' then String.mk s.data.dropLast else s

/-- name.replace(trailing-y regex, "ie") : category to categorie. -/
def yToIe (s : String) : String :=
  if s.data.getLast? == some 'y' then String.mk (s.data.dropLast ++ ['i', 'e']) else s

/-- JS regex word character class: [A-Za-z0-9_]. -/
def isWordChar (c : Char) : Bool := c.isAlphanum || c == '_'

/-- fk.references match against leading word chars followed by an opening
    parenthesis (blueprintValidator.js line 81); returns capture group 1. -/
def fkRefTable (r : String) : Option String :=
  let cs := r.toList
  let w := cs.takeWhile isWordChar
  if w.isEmpty then none
  else
    match cs.drop w.length with
    | '(' :: _ => some (String.mk w)
    | _ => none

/-- The global replace of "/:" followed by one or more word characters by
    "/:param" (blueprintValidator.js lines 131-133), leftmost-first. -/
def replParams : List Char → List Char
  | [] => []
  | '/' :: ':' :: rest =>
    if (rest.takeWhile isWordChar).isEmpty then '/' :: replParams (':' :: rest)
    else '/' :: ':' :: 'p' :: 'a' :: 'r' :: 'a' :: 'm' ::
      replParams (rest.dropWhile isWordChar)
  | c :: cs => c :: replParams cs
termination_by l => l.length
decreasing_by
  all_goals simp only [List.length_cons]
  all_goals
    first
      | omega
      | (have hdw : ∀ l : List Char, (l.dropWhile isWordChar).length ≤ l.length := by
           intro l
           induction l with
           | nil => simp
           | cons a l ih =>
             rw [List.dropWhile_cons]
             split
             · exact Nat.le_succ_of_le ih
             · exact Nat.le_refl _
         have := hdw rest
         omega)

/-- Prefix comparison of character lists. -/
def listPrefixEq : List Char → List Char → Bool
  | [], _ => true
  | _ :: _, [] => false
  | a :: as, b :: bs => a == b && listPrefixEq as bs

/-- Occurrence of pat anywhere in the list (String.prototype.includes). -/
def subAt (pat : List Char) : List Char → Bool
  | [] => pat.isEmpty
  | l@(_ :: rest) => listPrefixEq pat l || subAt pat rest

/-- s.includes(pat). -/
def strIncludes (s pat : String) : Bool := subAt pat.toList s.toList

/-- JS truthiness of an optional string: undefined/null and "" are falsy. -/
def strTruthy : Option String → Bool
  | some s => !s.data.isEmpty
  | none => false

/-- JS template-literal rendering of a possibly-undefined string. -/
def jsStr (o : Option String) : String := o.getD "undefined"

structure Entity where
  name : String
deriving Repr, DecidableEq

structure ForeignKey where
  references : Option String
deriving Repr, DecidableEq

structure Table where
  name : String
  foreignKeys : Option (List ForeignKey)
deriving Repr, DecidableEq

structure DbSchema where
  tables : Option (List Table)
deriving Repr, DecidableEq

structure Endpoint where
  method : String
  path : Option String
  relatedTable : Option String
  requiresAuth : Bool
deriving Repr, DecidableEq

structure Component where
  name : String
  apiCalls : Option (List String)
deriving Repr, DecidableEq

structure Page where
  name : String
  requiresAuth : Bool
  components : Option (List Component)
deriving Repr, DecidableEq

/-- The blueprint artifact set read by the validator (line 42).  Absent
    artifacts are none; present JS arrays (even empty ones, which are
    truthy) are some.  Elements that the code dereferences without a guard
    (names) are typed as required fields; fields the code guards with
    truthiness or optional chaining are Option. -/
structure Blueprint where
  entities : Option (List Entity)
  dbSchema : Option DbSchema
  apiEndpoints : Option (List Endpoint)
  frontendPages : Option (List Page)
deriving Repr, DecidableEq

structure ValidationIssue where
  type : String
  severity : String
  fixTarget : String
  message : String
deriving Repr, DecidableEq

/-- CHECK 1 (lines 49-70): every entity has a DB table. -/
def check1 (b : Blueprint) : List ValidationIssue :=
  match b.entities, b.dbSchema.bind DbSchema.tables with
  | some entities, some tables =>
    let tableNames := tables.map (fun t => stripTrailingS (lower t.name)) ++
                      tables.map (fun t => lower t.name)
    entities.filterMap (fun entity =>
      let entityName := lower entity.name
      let hasTable := tableNames.contains entityName ||
                      tableNames.contains (entityName ++ "s") ||
                      tableNames.contains (yToIe entityName ++ "s")
      if hasTable then none
      else some { type := "missing_table", severity := "error",
                  fixTarget := "architectStep2",
                  message := "Entity \"" ++ entity.name ++
                    "\" has no matching DB table. Tables: [" ++
                    String.intercalate ", " (tables.map Table.name) ++ "]" })
  | _, _ => []

/-- CHECK 2 (lines 74-96): foreign keys reference existing tables. -/
def check2 (b : Blueprint) : List ValidationIssue :=
  match b.dbSchema.bind DbSchema.tables with
  | some tables =>
    let tableNameSet := tables.map (fun t => lower t.name)
    tables.flatMap (fun table =>
      match table.foreignKeys with
      | some fks =>
        fks.filterMap (fun fk =>
          match fk.references with
          | some r =>
            match fkRefTable r with
            | some cap =>
              let refTable := lower cap
              if tableNameSet.contains refTable then none
              else some { type := "invalid_foreign_key", severity := "error",
                          fixTarget := "architectStep2",
                          message := "Table \"" ++ table.name ++
                            "\" has FK referencing \"" ++ r ++ "\" but table \"" ++
                            refTable ++ "\" does not exist." }
            | none => none
          | none => none)
      | none => [])
  | none => []

/-- CHECK 3 (lines 100-116): API endpoints reference existing tables. -/
def check3 (b : Blueprint) : List ValidationIssue :=
  match b.apiEndpoints, b.dbSchema.bind DbSchema.tables with
  | some endpoints, some tables =>
    let tableNameSet := tables.map (fun t => lower t.name)
    endpoints.filterMap (fun endpoint =>
      if strTruthy endpoint.relatedTable then
        let rt := endpoint.relatedTable.getD ""
        let related := lower rt
        if tableNameSet.contains related then none
        else some { type := "orphan_endpoint", severity := "error",
                    fixTarget := "architectStep3",
                    message := "API \"" ++ endpoint.method ++ " " ++
                      jsStr endpoint.path ++ "\" references table \"" ++ rt ++
                      "\" which doesn't exist." }
      else none)
  | _, _ => []

/-- CHECK 4 (lines 120-149): frontend pages reference existing APIs. -/
def check4 (b : Blueprint) : List ValidationIssue :=
  match b.frontendPages, b.apiEndpoints with
  | some pages, some endpoints =>
    let apiPaths : List (Option String) := endpoints.map (fun e => e.path.map lower)
    pages.flatMap (fun page =>
      match page.components with
      | some comps =>
        comps.flatMap (fun comp =>
          match comp.apiCalls with
          | some calls =>
            calls.filterMap (fun apiCall =>
              let lowCall := lower apiCall
              let normalized := String.mk (replParams lowCall.toList)
              let found := apiPaths.any (fun p =>
                match p with
                | some path =>
                  (String.mk (replParams path.toList) == normalized) || (path == lowCall)
                | none => false)
              if found then none
              else some { type := "missing_api", severity := "warning",
                          fixTarget := "architectStep3",
                          message := "Page \"" ++ page.name ++ "\" → Component \"" ++
                            comp.name ++ "\" calls \"" ++ apiCall ++
                            "\" but no matching API endpoint exists." })
          | none => [])
      | none => [])
  | _, _ => []

/-- CHECK 5 (lines 153-177): auth consistency. -/
def check5 (b : Blueprint) : List ValidationIssue :=
  match b.apiEndpoints, b.frontendPages with
  | some endpoints, some pages =>
    let authEndpoints : List (Option String) :=
      (endpoints.filter (fun e => e.requiresAuth)).map (fun e => e.path.map lower)
    pages.flatMap (fun page =>
      match page.components with
      | some comps =>
        comps.filterMap (fun comp =>
          match comp.apiCalls with
          | some calls =>
            let callsAuthApi := calls.any (fun c => authEndpoints.contains (some (lower c)))
            if callsAuthApi && !page.requiresAuth then
              some { type := "auth_mismatch", severity := "warning",
                     fixTarget := "architectStep4",
                     message := "Page \"" ++ page.name ++
                       "\" calls auth-required API but page.requiresAuth is false." }
            else none
          | none => none)
      | none => [])
  | _, _ => []

/-- CHECK 6 (lines 181-202): no orphan tables. -/
def check6 (b : Blueprint) : List ValidationIssue :=
  match b.dbSchema.bind DbSchema.tables, b.apiEndpoints with
  | some tables, some endpoints =>
    let referencedTables :=
      (endpoints.filterMap (fun e => e.relatedTable.map lower)).filter (fun s => !s.data.isEmpty)
    tables.filterMap (fun table =>
      let name := lower table.name
      let isJunction := strIncludes name "_" &&
        !(["created_at", "updated_at"].any (fun f => strIncludes name f))
      if !(referencedTables.contains name) && !isJunction then
        some { type := "orphan_table", severity := "warning",
               fixTarget := "architectStep3",
               message := "Table \"" ++ table.name ++
                 "\" exists but no API endpoint references it. Either add endpoints or remove the table." }
      else none)
  | _, _ => []

/-- The ordered battery of cross-checks of blueprintValidatorNode. -/
def computeIssues (b : Blueprint) : List ValidationIssue :=
  check1 b ++ check2 b ++ check3 b ++ check4 b ++ check5 b ++ check6 b

/-- blueprintValidator.js line 34. -/
def MAX_VALIDATION_CYCLES : Nat := 2

/-- The blueprintValidation state field.  issues is Option so that a
    validation object lacking the field can be distinguished (the router is
    defensive about it); the node itself always writes an array. -/
structure BlueprintValidation where
  isValid : Bool
  issues : Option (List ValidationIssue)
  validationCycles : Nat
deriving Repr, DecidableEq

structure ValidatorState where
  blueprint : Blueprint
  blueprintValidation : Option BlueprintValidation
deriving Repr, DecidableEq

/-- The partial state update returned by the validator node; currentPhase
    is none when the node omits the field (the route-back branch). -/
structure ValidatorUpdate where
  blueprintValidation : BlueprintValidation
  currentPhase : Option String
deriving Repr, DecidableEq

/-- blueprintValidatorNode (lines 39-247): run the six checks, then decide:
    zero issues passes with an empty list; at or above the cycle ceiling
    force isValid true but keep the issues; otherwise report invalid with
    the issues. -/
def blueprintValidatorNode (state : ValidatorState) : ValidatorUpdate :=
  let currentCycles := (state.blueprintValidation.map BlueprintValidation.validationCycles).getD 0
  let issues := computeIssues state.blueprint
  if issues.isEmpty then
    { blueprintValidation :=
        { isValid := true, issues := some [], validationCycles := currentCycles + 1 }
      currentPhase := some "planner" }
  else if currentCycles ≥ MAX_VALIDATION_CYCLES then
    { blueprintValidation :=
        { isValid := true, issues := some issues, validationCycles := currentCycles + 1 }
      currentPhase := some "planner" }
  else
    { blueprintValidation :=
        { isValid := false, issues := some issues, validationCycles := currentCycles + 1 }
      currentPhase := none }

/-- The validator node with the JS dereference of a possibly-absent value
    made explicit: .error marks the TypeError the JS would raise.  On the
    paths governed by absent top-level artifacts the only unguarded
    dereference is the destructuring of state.blueprint itself (line 42);
    every check sits behind a truthiness or optional-chaining guard,
    embedded as the Option matches inside blueprintValidatorNode. -/
def blueprintValidatorNodeJS (blueprint : Option Blueprint)
    (validation : Option BlueprintValidation) : Except String ValidatorUpdate :=
  match blueprint with
  | none => .error "TypeError: cannot destructure state.blueprint"
  | some b => .ok (blueprintValidatorNode { blueprint := b, blueprintValidation := validation })

/-- targetCounts[t] = (targetCounts[t] || 0) + 1 on an insertion-ordered
    association list (JS string-keyed objects preserve insertion order). -/
def bumpCount (m : List (String × Nat)) (t : String) : List (String × Nat) :=
  if m.any (fun q => q.1 == t) then
    m.map (fun q => if q.1 == t then (q.1, q.2 + 1) else q)
  else m ++ [(t, 1)]

/-- Stable insertion step for the descending-by-count sort. -/
def insertByCountDesc (p : String × Nat) : List (String × Nat) → List (String × Nat)
  | [] => [p]
  | q :: qs => if p.2 < q.2 then q :: insertByCountDesc p qs else p :: q :: qs

/-- Object.entries(targetCounts).sort(descending by count): a stable sort,
    per the ES2019 Array.prototype.sort stability guarantee. -/
def sortByCountDesc : List (String × Nat) → List (String × Nat)
  | [] => []
  | p :: ps => insertByCountDesc p (sortByCountDesc ps)

/-- blueprintValidatorRouter (lines 253-282): pass ends the phase; else the
    first error-severity issue's fixTarget wins; else the most frequent
    fixTarget among the remaining issues; else the terminal marker.  A
    falsy (empty) topTarget also falls through to the terminal marker. -/
def blueprintValidatorRouter (validation : Option BlueprintValidation) : String :=
  if (validation.map BlueprintValidation.isValid).getD false then "__end__"
  else
    let errors := ((validation.bind BlueprintValidation.issues).getD []).filter
      (fun i => i.severity == "error")
    match errors with
    | e :: _ => e.fixTarget
    | [] =>
      let targets := ((validation.bind BlueprintValidation.issues).getD []).map
        ValidationIssue.fixTarget
      let targetCounts := targets.foldl bumpCount []
      match sortByCountDesc targetCounts with
      | (t, _) :: _ => if t == "" then "__end__" else t
      | [] => "__end__"

end Validator

namespace Samples

/-- A blueprint with one consistency defect: entity Comment has no table
    (mirrors test 1 of tests/test-validator.js). -/
def defectBlueprint : Validator.Blueprint :=
  { entities := some [{ name := "Comment" }]
    dbSchema := some { tables := some [{ name := "users", foreignKeys := none }] }
    apiEndpoints := none
    frontendPages := none }

/-- The defective blueprint at the validation-cycle ceiling. -/
def defectStateAtCeiling : Validator.ValidatorState :=
  { blueprint := defectBlueprint
    blueprintValidation := some { isValid := false, issues := some [], validationCycles := 2 } }

/-- A blueprint with every artifact entirely absent. -/
def emptyBlueprint : Validator.Blueprint :=
  { entities := none, dbSchema := none, apiEndpoints := none, frontendPages := none }

/-- Warning-severity issues only, two targeting architectStep3 and one
    architectStep4. -/
def warningIssues : List Validator.ValidationIssue :=
  [ { type := "missing_api", severity := "warning", fixTarget := "architectStep4",
      message := "m1" }
  , { type := "auth_mismatch", severity := "warning", fixTarget := "architectStep3",
      message := "m2" }
  , { type := "orphan_table", severity := "warning", fixTarget := "architectStep3",
      message := "m3" } ]

/-- A non-passing validation result carrying only those warnings. -/
def warningsValidation : Validator.BlueprintValidation :=
  { isValid := false, issues := some warningIssues, validationCycles := 1 }

/-- An environment whose delegated call always yields unparseable output. -/
def unparseableEnv : Nat → Gemini.AttemptResult :=
  fun _ => .ok "not json" none none none

/-- An environment that fails on attempt 1 and succeeds on attempt 2. -/
def retryEnv : Nat → Gemini.AttemptResult :=
  fun n => if n = 1 then .channelErr false "ECONNRESET"
           else .ok "xy" (some 10) (some 5) (some "ok")

end Samples

/- ───────────────────────── Theorems ───────────────────────── -/

/-- C1: for every invocation of callGemini with currentCost ≥ tokenBudget,
    the adapter fails synchronously with the budget-exceeded condition and
    issues zero delegated calls; moreover a budget-flagged error raised by
    a delegated call inside the retry loop propagates out at the very
    attempt that raised it — it is never retried. -/
theorem callGemini_budget_guard
    (sys user : String) (currentCost tokenBudget : ℚ)
    (env : Nat → Gemini.AttemptResult)
    (h : currentCost ≥ tokenBudget) :
    Gemini.callGemini sys user currentCost tokenBudget env =
      { outcome := .failure (.budgetExceeded currentCost tokenBudget), callsIssued := 0 }
    ∧ ∀ (promptLen : Nat) (lastError : Option Gemini.ErrKind) (attempt : Nat) (msg : String),
        attempt ≤ Gemini.MAX_RETRIES →
        env attempt = .channelErr true msg →
        Gemini.callLoop promptLen env lastError attempt =
          { outcome := .failure (.channel true msg), callsIssued := attempt } := by
  constructor
  · simp [Gemini.callGemini, h]
  · intro promptLen lastError attempt msg hle henv
    rw [Gemini.callLoop]
    simp [hle, henv]

/-- Witness for callGemini_budget_guard at cost = ceiling = 2. -/
theorem callGemini_budget_guard_witness :
    (2 : ℚ) ≥ 2 ∧
    Gemini.callGemini "s" "u" 2 2 (fun _ => .channelErr true "budget") =
      { outcome := .failure (.budgetExceeded 2 2), callsIssued := 0 } :=
  ⟨le_refl 2, (callGemini_budget_guard "s" "u" 2 2
      (fun _ => .channelErr true "budget") (le_refl 2)).1⟩

/-- C2: when the blueprint has consistency defects and the validation cycle
    count is already at or above MAX_VALIDATION_CYCLES, the validator
    reports isValid = true yet returns the full non-empty issue list rather
    than discarding it. -/
theorem blueprintValidator_forced_pass_keeps_issues
    (state : Validator.ValidatorState)
    (hdef : Validator.computeIssues state.blueprint ≠ [])
    (hcyc : ((state.blueprintValidation.map
        Validator.BlueprintValidation.validationCycles).getD 0)
        ≥ Validator.MAX_VALIDATION_CYCLES) :
    (Validator.blueprintValidatorNode state).blueprintValidation.isValid = true
    ∧ (Validator.blueprintValidatorNode state).blueprintValidation.issues =
        some (Validator.computeIssues state.blueprint)
    ∧ (Validator.blueprintValidatorNode state).blueprintValidation.issues ≠ some [] := by
  have hne : (Validator.computeIssues state.blueprint).isEmpty = false := by
    cases h : Validator.computeIssues state.blueprint with
    | nil => exact absurd h hdef
    | cons a l => rfl
  unfold Validator.blueprintValidatorNode
  simp only [hne, Bool.false_eq_true, if_false, if_pos hcyc, ne_eq, Option.some.injEq,
    true_and, and_true]
  exact hdef

/-- Witness for the forced pass on a defective blueprint at cycle 2. -/
theorem blueprintValidator_forced_pass_keeps_issues_witness :
    (Validator.computeIssues Samples.defectStateAtCeiling.blueprint ≠ []
      ∧ ((Samples.defectStateAtCeiling.blueprintValidation.map
          Validator.BlueprintValidation.validationCycles).getD 0)
          ≥ Validator.MAX_VALIDATION_CYCLES)
    ∧ (Validator.blueprintValidatorNode Samples.defectStateAtCeiling).blueprintValidation.isValid
        = true :=
  ⟨⟨by decide, by decide⟩,
   (blueprintValidator_forced_pass_keeps_issues Samples.defectStateAtCeiling
      (by decide) (by decide)).1⟩

/-- C4: a blueprint artifact set on which every cross-check finds nothing
    makes the validator report isValid = true with an empty issue list. -/
theorem blueprintValidator_clean_pass (state : Validator.ValidatorState)
    (h : Validator.computeIssues state.blueprint = []) :
    (Validator.blueprintValidatorNode state).blueprintValidation.isValid = true
    ∧ (Validator.blueprintValidatorNode state).blueprintValidation.issues = some [] := by
  unfold Validator.blueprintValidatorNode
  simp [h]

/-- Witness for the clean pass on the all-absent blueprint. -/
theorem blueprintValidator_clean_pass_witness :
    Validator.computeIssues Samples.emptyBlueprint = []
    ∧ (Validator.blueprintValidatorNode
        { blueprint := Samples.emptyBlueprint, blueprintValidation := none
          }).blueprintValidation.issues = some [] :=
  ⟨by decide,
   (blueprintValidator_clean_pass
      { blueprint := Samples.emptyBlueprint, blueprintValidation := none } (by decide)).2⟩

/-- C9: with the state.blueprint object present but a prerequisite artifact
    entirely absent (entities, dbSchema, dbSchema.tables, apiEndpoints or
    frontendPages), the validator completes and returns a result — no check
    raises a TypeError from dereferencing the absent artifact, because every
    check sits behind a truthiness or optional-chaining guard. -/
theorem blueprintValidator_absent_artifact_safe
    (b : Validator.Blueprint) (v : Option Validator.BlueprintValidation)
    (habs : b.entities = none ∨ b.dbSchema = none ∨
            (∃ d, b.dbSchema = some d ∧ d.tables = none) ∨
            b.apiEndpoints = none ∨ b.frontendPages = none) :
    Validator.blueprintValidatorNodeJS (some b) v =
      Except.ok (Validator.blueprintValidatorNode
        { blueprint := b, blueprintValidation := v }) := rfl

/-- Witness: the fully absent artifact set is handled without error. -/
theorem blueprintValidator_absent_artifact_safe_witness :
    Samples.emptyBlueprint.entities = none
    ∧ Validator.blueprintValidatorNodeJS (some Samples.emptyBlueprint) none =
        Except.ok (Validator.blueprintValidatorNode
          { blueprint := Samples.emptyBlueprint, blueprintValidation := none }) :=
  ⟨rfl, blueprintValidator_absent_artifact_safe Samples.emptyBlueprint none (Or.inl rfl)⟩

/-- C10: a non-passing validation result whose issue list is empty or
    missing routes to the terminal marker rather than any architect step. -/
theorem blueprintValidatorRouter_no_issues_end
    (v : Validator.BlueprintValidation)
    (hvalid : v.isValid = false)
    (hiss : v.issues = none ∨ v.issues = some []) :
    Validator.blueprintValidatorRouter (some v) = "__end__" := by
  rcases hiss with h | h <;>
    · unfold Validator.blueprintValidatorRouter
      simp [hvalid, h, Validator.sortByCountDesc]

/-- Witness for the empty-issue non-passing route. -/
theorem blueprintValidatorRouter_no_issues_end_witness :
    ((⟨false, some [], 0⟩ : Validator.BlueprintValidation).isValid = false)
    ∧ Validator.blueprintValidatorRouter
        (some ⟨false, some [], 0⟩) = "__end__" :=
  ⟨rfl, blueprintValidatorRouter_no_issues_end ⟨false, some [], 0⟩ rfl (Or.inr rfl)⟩

/-- C7 counterexample: the claim "a null update is a no-op retaining the
    current value, so the final value equals the last non-null update" is
    false for the Replace reducers of state.js: applying the updates
    [some "a", none] to userRequirement yields "" (the field default),
    although the last non-null update applied is "a". -/
theorem replaceReducer_null_not_noop_counterexample :
    List.foldl StateStore.userRequirementReducer "" [some "a", none] = ""
    ∧ StateStore.lastNonNull [some "a", none] = some "a"
    ∧ ("" : String) ≠ "a" := by
  refine ⟨rfl, rfl, ?_⟩
  decide

/-- C7 amended: the Replace reducer ignores the current value entirely
    (reducer (x, y) = y or the default): over any update sequence the final
    field value is the last update when that update is non-null, the field
    default "" when the last update is null/undefined, and the initial
    value only when no update was applied at all. -/
theorem replaceReducer_last_update_or_default
    (updates : List (Option String)) (init : String) :
    updates.foldl StateStore.userRequirementReducer init =
      match updates.getLast? with
      | some (some v) => v
      | some none => ""
      | none => init := by
  induction updates generalizing init with
  | nil => rfl
  | cons u us ih =>
    rw [List.foldl_cons, ih]
    cases us with
    | nil => cases u <;> rfl
    | cons u2 us2 =>
      rw [List.getLast?_cons_cons]
      cases hlast : (u2 :: us2).getLast? with
      | none =>
        rw [List.getLast?_eq_none_iff] at hlast
        exact absurd hlast (List.cons_ne_nil u2 us2)
      | some o => cases o <;> rfl

/-- C6: three consecutive structural (JSON-parse) failures exhaust the
    3-attempt ceiling: the adapter terminates with the JSON_PARSE_FAILED
    condition — distinct by construction from every channel failure —
    after exactly 3 delegated calls, and zero usage deltas are recorded. -/
theorem callGemini_parse_exhaustion
    (sys user agent : String) (now : Nat) (currentCost tokenBudget : ℚ)
    (env : Nat → Gemini.AttemptResult)
    (hb : currentCost < tokenBudget)
    (h1 : ∃ raw pt ct, env 1 = Gemini.AttemptResult.ok raw pt ct none)
    (h2 : ∃ raw pt ct, env 2 = Gemini.AttemptResult.ok raw pt ct none)
    (h3 : ∃ raw pt ct, env 3 = Gemini.AttemptResult.ok raw pt ct none) :
    Gemini.callGemini sys user currentCost tokenBudget env =
      { outcome := .failure .parseFailed, callsIssued := 3 }
    ∧ Gemini.usageDeltasOf agent now
        (Gemini.callGemini sys user currentCost tokenBudget env) = []
    ∧ ∀ (budgetMsg : Bool) (msg : String),
        (Gemini.ErrKind.parseFailed : Gemini.ErrKind) ≠ .channel budgetMsg msg := by
  obtain ⟨r1, q1, c1, h1⟩ := h1
  obtain ⟨r2, q2, c2, h2⟩ := h2
  obtain ⟨r3, q3, c3, h3⟩ := h3
  have hlt : ¬ currentCost ≥ tokenBudget := not_le.mpr hb
  have hrun : Gemini.callGemini sys user currentCost tokenBudget env =
      { outcome := .failure .parseFailed, callsIssued := 3 } := by
    unfold Gemini.callGemini
    rw [if_neg hlt]
    rw [Gemini.callLoop]
    simp only [Gemini.MAX_RETRIES, h1]
    norm_num
    rw [Gemini.callLoop]
    simp only [Gemini.MAX_RETRIES, h2]
    norm_num
    rw [Gemini.callLoop]
    simp only [Gemini.MAX_RETRIES, h3]
    norm_num
  refine ⟨hrun, by rw [hrun]; rfl, ?_⟩
  intro bm m hcontra
  cases hcontra

/-- Witness for parse exhaustion with cost 0 against budget 2. -/
theorem callGemini_parse_exhaustion_witness :
    (0 : ℚ) < 2
    ∧ Gemini.callGemini "s" "u" 0 2 Samples.unparseableEnv =
        { outcome := .failure .parseFailed, callsIssued := 3 }
    ∧ Gemini.usageDeltasOf "planner" 7
        (Gemini.callGemini "s" "u" 0 2 Samples.unparseableEnv) = [] :=
  ⟨by norm_num,
   (callGemini_parse_exhaustion "s" "u" "planner" 7 0 2 Samples.unparseableEnv
      (by norm_num) ⟨"not json", none, none, rfl⟩ ⟨"not json", none, none, rfl⟩
      ⟨"not json", none, none, rfl⟩).1,
   (callGemini_parse_exhaustion "s" "u" "planner" 7 0 2 Samples.unparseableEnv
      (by norm_num) ⟨"not json", none, none, rfl⟩ ⟨"not json", none, none, rfl⟩
      ⟨"not json", none, none, rfl⟩).2.1⟩

/-- One bumpCount step keeps the bookkeeping: each pair's value is the
    occurrence count of its key in the consumed target prefix, and a key
    appears in the association list exactly when it occurred. -/
theorem bumpCount_step (m : List (String × Nat)) (ts0 : List String) (a : String)
    (h1 : ∀ q ∈ m, q.2 = ts0.count q.1)
    (h2 : ∀ t : String, t ∈ ts0 ↔ ∃ n, (t, n) ∈ m) :
    (∀ q ∈ Validator.bumpCount m a, q.2 = (ts0 ++ [a]).count q.1)
    ∧ (∀ t : String, t ∈ ts0 ++ [a] ↔ ∃ n, (t, n) ∈ Validator.bumpCount m a) := by
  have hcnt : ∀ x : String, (ts0 ++ [a]).count x = ts0.count x + (if a = x then 1 else 0) := by
    intro x
    rw [List.count_append, List.count_cons, List.count_nil]
    simp [beq_iff_eq]
  unfold Validator.bumpCount
  by_cases h : m.any (fun q => q.1 == a) = true
  · simp only [h, if_true]
    constructor
    · intro q hq
      rw [List.mem_map] at hq
      obtain ⟨q0, hq0, hq0e⟩ := hq
      by_cases hk : q0.1 = a
      · rw [show (if (q0.1 == a) = true then (q0.1, q0.2 + 1) else q0) = (q0.1, q0.2 + 1) by
            simp [hk]] at hq0e
        rw [← hq0e, hcnt, ← h1 q0 hq0]
        simp [hk]
      · rw [show (if (q0.1 == a) = true then (q0.1, q0.2 + 1) else q0) = q0 by
            simp [hk]] at hq0e
        rw [← hq0e, hcnt, ← h1 q0 hq0, if_neg (fun hcontra => hk hcontra.symm)]
        rfl
    · intro t
      rw [List.mem_append, List.mem_singleton]
      constructor
      · rintro (ht | rfl)
        · obtain ⟨n, hn⟩ := (h2 t).mp ht
          refine ⟨if t = a then n + 1 else n, ?_⟩
          rw [List.mem_map]
          exact ⟨(t, n), hn, by by_cases hk : t = a <;> simp [hk]⟩
        · rw [List.any_eq_true] at h
          obtain ⟨q0, hq0, hq0k⟩ := h
          rw [beq_iff_eq] at hq0k
          refine ⟨q0.2 + 1, ?_⟩
          rw [List.mem_map]
          exact ⟨q0, hq0, by simp [hq0k]⟩
      · rintro ⟨n, hn⟩
        rw [List.mem_map] at hn
        obtain ⟨q0, hq0, hq0e⟩ := hn
        by_cases hk : q0.1 = a
        · right
          have : (t, n) = (q0.1, q0.2 + 1) := by rw [← hq0e]; simp [hk]
          rw [show t = q0.1 from congrArg Prod.fst this]
          exact hk
        · left
          have : (t, n) = q0 := by rw [← hq0e]; simp [hk]
          exact (h2 t).mpr ⟨n, by rw [this]; exact hq0⟩
  · rw [Bool.not_eq_true] at h
    simp only [h, Bool.false_eq_true, if_false]
    have habs : ∀ q ∈ m, q.1 ≠ a := by
      intro q hq
      have := (List.any_eq_false.mp h) q hq
      simpa using this
    constructor
    · intro q hq
      rw [List.mem_append, List.mem_singleton] at hq
      rcases hq with hq | rfl
      · rw [hcnt, ← h1 q hq, if_neg (fun hcontra => habs q hq hcontra.symm)]
        rfl
      · rw [hcnt]
        have hnot : a ∉ ts0 := by
          intro hmem
          obtain ⟨n, hn⟩ := (h2 a).mp hmem
          exact habs (a, n) hn rfl
        rw [List.count_eq_zero.mpr hnot]
        simp
    · intro t
      rw [List.mem_append, List.mem_singleton]
      constructor
      · rintro (ht | rfl)
        · obtain ⟨n, hn⟩ := (h2 t).mp ht
          exact ⟨n, List.mem_append.mpr (Or.inl hn)⟩
        · exact ⟨1, List.mem_append.mpr (Or.inr (List.mem_singleton.mpr rfl))⟩
      · rintro ⟨n, hn⟩
        rw [List.mem_append, List.mem_singleton] at hn
        rcases hn with hn | hn
        · exact Or.inl ((h2 t).mpr ⟨n, hn⟩)
        · exact Or.inr (congrArg Prod.fst hn)

/-- The bumpCount fold over a whole target list: values are counts and
    keys are exactly the occurring targets. -/
theorem bumpCount_fold (ts : List String) :
    (∀ q ∈ ts.foldl Validator.bumpCount [], q.2 = ts.count q.1)
    ∧ (∀ t : String, t ∈ ts ↔ ∃ n, (t, n) ∈ ts.foldl Validator.bumpCount []) := by
  suffices hgen : ∀ (ts : List String) (m : List (String × Nat)) (ts0 : List String),
      (∀ q ∈ m, q.2 = ts0.count q.1) →
      (∀ t : String, t ∈ ts0 ↔ ∃ n, (t, n) ∈ m) →
      (∀ q ∈ ts.foldl Validator.bumpCount m, q.2 = (ts0 ++ ts).count q.1)
      ∧ (∀ t : String, t ∈ ts0 ++ ts ↔ ∃ n, (t, n) ∈ ts.foldl Validator.bumpCount m) by
    have := hgen ts [] [] (by intro q hq; cases hq) (by intro t; simp)
    simpa using this
  intro ts
  induction ts with
  | nil =>
    intro m ts0 h1 h2
    constructor
    · intro q hq; simpa using h1 q hq
    · intro t; simpa using h2 t
  | cons a ts ih =>
    intro m ts0 h1 h2
    obtain ⟨s1, s2⟩ := bumpCount_step m ts0 a h1 h2
    have := ih (Validator.bumpCount m a) (ts0 ++ [a]) s1 s2
    rw [List.foldl_cons]
    constructor
    · intro q hq
      have := this.1 q hq
      rwa [List.append_assoc, List.singleton_append] at this
    · intro t
      have := this.2 t
      rwa [List.append_assoc, List.singleton_append] at this

/-- Membership through the stable descending insertion step. -/
theorem insertByCountDesc_mem (p q : String × Nat) (l : List (String × Nat)) :
    q ∈ Validator.insertByCountDesc p l ↔ q = p ∨ q ∈ l := by
  induction l with
  | nil => simp [Validator.insertByCountDesc]
  | cons r rs ih =>
    unfold Validator.insertByCountDesc
    by_cases h : p.2 < r.2
    · simp only [h, if_true, List.mem_cons, ih]
      all_goals tauto
    · simp only [h, if_false, List.mem_cons]

/-- The head of the descending stable sort is a member attaining the
    maximal count. -/
theorem sortByCountDesc_head_max (l : List (String × Nat)) (hne : l ≠ []) :
    ∃ p rest, Validator.sortByCountDesc l = p :: rest ∧ p ∈ l ∧ ∀ q ∈ l, q.2 ≤ p.2 := by
  induction l with
  | nil => exact absurd rfl hne
  | cons x xs ih =>
    cases hxs : xs with
    | nil =>
      refine ⟨x, [], rfl, List.mem_singleton.mpr rfl, ?_⟩
      intro q hq
      rw [List.mem_singleton] at hq
      exact hq ▸ Nat.le_refl x.2
    | cons y ys =>
      have hne2 : xs ≠ [] := by rw [hxs]; exact List.cons_ne_nil y ys
      obtain ⟨p, rest, hsort, hmem, hmax⟩ := ih hne2
      rw [hxs] at hsort hmem hmax
      unfold Validator.sortByCountDesc
      rw [hsort]
      unfold Validator.insertByCountDesc
      by_cases h : x.2 < p.2
      · refine ⟨p, Validator.insertByCountDesc x rest, ?_,
          List.mem_cons_of_mem x hmem, ?_⟩
        · rw [if_pos h]
        · intro q hq
          rcases List.mem_cons.mp hq with rfl | hq
          · exact Nat.le_of_lt h
          · exact hmax q hq
      · refine ⟨x, p :: rest, ?_, List.mem_cons_self x (y :: ys), ?_⟩
        · rw [if_neg h]
        · intro q hq
          rcases List.mem_cons.mp hq with rfl | hq
          · exact Nat.le_refl q.2
          · exact Nat.le_trans (hmax q hq) (Nat.not_lt.mp h)

/-- Router evaluation on a non-passing result with a first error issue:
    the first error's fixTarget is returned. -/
theorem router_error_eval (v : Validator.BlueprintValidation)
    (issues : List Validator.ValidationIssue)
    (e : Validator.ValidationIssue) (rest : List Validator.ValidationIssue)
    (hvalid : v.isValid = false)
    (hiss : v.issues = some issues)
    (hfil : issues.filter (fun i => i.severity == "error") = e :: rest) :
    Validator.blueprintValidatorRouter (some v) = e.fixTarget := by
  unfold Validator.blueprintValidatorRouter
  simp [hvalid, hiss, hfil]

/-- Router evaluation on a non-passing result with no error issue: the
    stable descending sort of the fixTarget counts decides. -/
theorem router_warning_eval (v : Validator.BlueprintValidation)
    (issues : List Validator.ValidationIssue)
    (hvalid : v.isValid = false)
    (hiss : v.issues = some issues)
    (hfil : issues.filter (fun i => i.severity == "error") = []) :
    Validator.blueprintValidatorRouter (some v) =
      match Validator.sortByCountDesc
          ((issues.map Validator.ValidationIssue.fixTarget).foldl Validator.bumpCount []) with
      | (t, _) :: _ => if t == "" then "__end__" else t
      | [] => "__end__" := by
  unfold Validator.blueprintValidatorRouter
  simp [hvalid, hiss, hfil]

/-- C3: for a non-passing validation result (with well-formed, non-empty
    fixTargets), the router returns the fixTarget of the first
    error-severity issue when an error exists; and when only
    warning-severity issues exist it returns a fixTarget occurring most
    often among them (majority vote). -/
theorem blueprintValidatorRouter_route_back
    (v : Validator.BlueprintValidation)
    (issues : List Validator.ValidationIssue)
    (hvalid : v.isValid = false)
    (hiss : v.issues = some issues)
    (hft : ∀ i ∈ issues, i.fixTarget ≠ "") :
    (∀ e rest, issues.filter (fun i => i.severity == "error") = e :: rest →
        Validator.blueprintValidatorRouter (some v) = e.fixTarget)
    ∧ ((∀ i ∈ issues, i.severity = "warning") → issues ≠ [] →
        Validator.blueprintValidatorRouter (some v) ∈
          issues.map Validator.ValidationIssue.fixTarget
        ∧ ∀ t ∈ issues.map Validator.ValidationIssue.fixTarget,
            (issues.map Validator.ValidationIssue.fixTarget).count t ≤
              (issues.map Validator.ValidationIssue.fixTarget).count
                (Validator.blueprintValidatorRouter (some v))) := by
  constructor
  · intro e rest hfil
    exact router_error_eval v issues e rest hvalid hiss hfil
  · intro hwarn hne
    have hfil : issues.filter (fun i => i.severity == "error") = [] := by
      rw [List.filter_eq_nil_iff]
      intro i hi
      rw [hwarn i hi]
      decide
    have heval := router_warning_eval v issues hvalid hiss hfil
    set targets := issues.map Validator.ValidationIssue.fixTarget with htargets
    have htne : targets ≠ [] := by
      rw [htargets]
      intro hc
      exact hne (List.map_eq_nil_iff.mp hc)
    obtain ⟨hpairs, hmem⟩ := bumpCount_fold targets
    have hcne : targets.foldl Validator.bumpCount [] ≠ [] := by
      obtain ⟨t0, ht0⟩ := List.exists_mem_of_ne_nil targets htne
      obtain ⟨n, hn⟩ := (hmem t0).mp ht0
      intro hc
      rw [hc] at hn
      cases hn
    obtain ⟨p, rest, hsort, hpmem, hpmax⟩ :=
      sortByCountDesc_head_max (targets.foldl Validator.bumpCount []) hcne
    have hp1 : p.1 ∈ targets := (hmem p.1).mpr ⟨p.2, by rw [← Prod.mk.eta (p := p)] at hpmem; exact hpmem⟩
    have hp2 : p.2 = targets.count p.1 := hpairs p hpmem
    have hpne : p.1 ≠ "" := by
      rw [htargets] at hp1
      obtain ⟨i, hi, hie⟩ := List.mem_map.mp hp1
      rw [← hie]
      exact hft i hi
    have hrouter : Validator.blueprintValidatorRouter (some v) = p.1 := by
      rw [heval, hsort]
      have : (p.1 == "") = false := beq_eq_false_iff_ne.mpr hpne
      cases p with
      | mk a b => simp only at this ⊢; rw [this]; rfl
    rw [hrouter]
    refine ⟨hp1, ?_⟩
    intro t ht
    obtain ⟨n, hn⟩ := (hmem t).mp ht
    have hv : n = targets.count t := hpairs (t, n) hn
    have hle : n ≤ p.2 := hpmax (t, n) hn
    rw [← hp2, ← hv]
    exact hle

/-- Witness for the route-back theorem: warnings 1x architectStep4 and
    2x architectStep3 route back to architectStep3, the majority target. -/
theorem blueprintValidatorRouter_route_back_witness :
    ((∀ i ∈ Samples.warningIssues, i.fixTarget ≠ "")
      ∧ (∀ i ∈ Samples.warningIssues, i.severity = "warning")
      ∧ Samples.warningIssues ≠ [])
    ∧ Validator.blueprintValidatorRouter (some Samples.warningsValidation) ∈
        Samples.warningIssues.map Validator.ValidationIssue.fixTarget :=
  ⟨⟨by decide, by decide, by decide⟩,
   ((blueprintValidatorRouter_route_back Samples.warningsValidation Samples.warningIssues
      rfl rfl (by decide)).2 (by decide) (by decide)).1⟩

/-- Success characterization of the retry loop: a successful run returns at
    the first attempt whose response parses, its token info is computed from
    that attempt alone, and every earlier issued attempt failed retryably. -/
theorem callLoop_success_spec (promptLen : Nat) (env : Nat → Gemini.AttemptResult) :
    ∀ (n attempt : Nat) (lastError : Option Gemini.ErrKind)
      (v raw : String) (t : Gemini.TokenInfo) (k : Nat),
    Gemini.MAX_RETRIES + 1 - attempt ≤ n →
    Gemini.callLoop promptLen env lastError attempt =
      { outcome := .success v raw t, callsIssued := k } →
    attempt ≤ k ∧ k ≤ Gemini.MAX_RETRIES ∧
    (∃ pt ct, env k = .ok raw pt ct (some v)
      ∧ t = Gemini.tokensOf promptLen raw pt ct) ∧
    (∀ j, attempt ≤ j → j < k → Gemini.failedAttempt (env j) = true) := by
  intro n
  induction n with
  | zero =>
    intro attempt lastError v raw t k hn heq
    have hgt : ¬ attempt ≤ Gemini.MAX_RETRIES := by omega
    rw [Gemini.callLoop, dif_neg hgt] at heq
    exact absurd (congrArg Gemini.RunResult.outcome heq) (by simp)
  | succ n ih =>
    intro attempt lastError v raw t k hn heq
    rw [Gemini.callLoop] at heq
    by_cases hle : attempt ≤ Gemini.MAX_RETRIES
    · rw [dif_pos hle] at heq
      cases he : env attempt with
      | ok raw2 pt ct parsed =>
        rw [he] at heq
        cases parsed with
        | some v2 =>
          have h1 := congrArg Gemini.RunResult.outcome heq
          have h2 := congrArg Gemini.RunResult.callsIssued heq
          simp only at h1 h2
          injection h1 with hv hraw ht
          subst h2
          refine ⟨Nat.le_refl _, hle, ⟨pt, ct, ?_, ?_⟩, ?_⟩
          · rw [← hv, ← hraw]
            exact he
          · rw [← ht, hraw]
          · intro j hj1 hj2
            omega
        | none =>
          by_cases hmax : attempt = Gemini.MAX_RETRIES
          · rw [if_pos hmax] at heq
            exact absurd (congrArg Gemini.RunResult.outcome heq) (by simp)
          · rw [if_neg hmax] at heq
            have hrec := ih (attempt + 1) (some .parseFailed) v raw t k (by omega) heq
            refine ⟨by omega, hrec.2.1, hrec.2.2.1, ?_⟩
            intro j hj1 hj2
            by_cases hje : j = attempt
            · subst hje
              rw [he]
              rfl
            · exact hrec.2.2.2 j (by omega) hj2
      | channelErr bm msg =>
        rw [he] at heq
        cases bm with
        | true =>
          exact absurd (congrArg Gemini.RunResult.outcome heq) (by simp)
        | false =>
          simp only [Bool.false_eq_true, if_false] at heq
          by_cases hmax : attempt = Gemini.MAX_RETRIES
          · rw [if_pos hmax] at heq
            exact absurd (congrArg Gemini.RunResult.outcome heq) (by simp)
          · rw [if_neg hmax] at heq
            have hrec := ih (attempt + 1) (some (.channel false msg)) v raw t k (by omega) heq
            refine ⟨by omega, hrec.2.1, hrec.2.2.1, ?_⟩
            intro j hj1 hj2
            by_cases hje : j = attempt
            · subst hje
              rw [he]
              rfl
            · exact hrec.2.2.2 j (by omega) hj2
    · rw [dif_neg hle] at heq
      exact absurd (congrArg Gemini.RunResult.outcome heq) (by simp)

/-- C5: a successful adapter invocation yields exactly one usage delta,
    whose call record and added totals are computed solely from the final
    successful attempt (its measured or size-estimated consumption); the
    issued attempts before it all failed retryably and contribute nothing. -/
theorem callGemini_single_delta
    (sys user agent : String) (now : Nat) (currentCost tokenBudget : ℚ)
    (env : Nat → Gemini.AttemptResult) (v raw : String) (t : Gemini.TokenInfo) (k : Nat)
    (h : Gemini.callGemini sys user currentCost tokenBudget env =
      { outcome := .success v raw t, callsIssued := k }) :
    (Gemini.usageDeltasOf agent now
        (Gemini.callGemini sys user currentCost tokenBudget env)).length = 1
    ∧ Gemini.usageDeltasOf agent now
        (Gemini.callGemini sys user currentCost tokenBudget env) =
        [Gemini.makeTokenDelta agent now t]
    ∧ (Gemini.makeTokenDelta agent now t).newCalls.length = 1
    ∧ (Gemini.makeTokenDelta agent now t).addedInput = t.input
    ∧ (Gemini.makeTokenDelta agent now t).addedOutput = t.output
    ∧ (Gemini.makeTokenDelta agent now t).addedCost = t.cost
    ∧ 1 ≤ k ∧ k ≤ Gemini.MAX_RETRIES
    ∧ (∃ pt ct, env k = .ok raw pt ct (some v)
        ∧ t = Gemini.tokensOf (Gemini.fullPrompt sys user).length raw pt ct)
    ∧ (∀ j, 1 ≤ j → j < k → Gemini.failedAttempt (env j) = true) := by
  have hloop : Gemini.callLoop (Gemini.fullPrompt sys user).length env none 1 =
      { outcome := .success v raw t, callsIssued := k } := by
    unfold Gemini.callGemini at h
    by_cases hb : currentCost ≥ tokenBudget
    · rw [if_pos hb] at h
      exact absurd (congrArg Gemini.RunResult.outcome h) (by simp)
    · rwa [if_neg hb] at h
  have hspec := callLoop_success_spec (Gemini.fullPrompt sys user).length env
    (Gemini.MAX_RETRIES) 1 none v raw t k (by omega) hloop
  refine ⟨?_, ?_, rfl, rfl, rfl, rfl, hspec.1, hspec.2.1, hspec.2.2.1, hspec.2.2.2⟩
  · rw [h]
    rfl
  · rw [h]
    rfl

/-- Witness for the single-delta theorem: one channel failure, then a
    successful parse on attempt 2; exactly one delta is recorded. -/
theorem callGemini_single_delta_witness :
    Gemini.callGemini "s" "u" 0 2 Samples.retryEnv =
      { outcome := .success "ok" "xy"
          (Gemini.tokensOf (Gemini.fullPrompt "s" "u").length "xy" (some 10) (some 5))
        callsIssued := 2 }
    ∧ (Gemini.usageDeltasOf "planner" 7
        (Gemini.callGemini "s" "u" 0 2 Samples.retryEnv)).length = 1 := by
  have h : Gemini.callGemini "s" "u" 0 2 Samples.retryEnv =
      { outcome := .success "ok" "xy"
          (Gemini.tokensOf (Gemini.fullPrompt "s" "u").length "xy" (some 10) (some 5))
        callsIssued := 2 } := by
    unfold Gemini.callGemini
    rw [if_neg (by norm_num)]
    rw [Gemini.callLoop]
    norm_num [Samples.retryEnv, Gemini.MAX_RETRIES]
    rw [Gemini.callLoop]
    norm_num [Samples.retryEnv, Gemini.MAX_RETRIES]
  exact ⟨h, (callGemini_single_delta "s" "u" "planner" 7 0 2 Samples.retryEnv "ok" "xy"
    (Gemini.tokensOf (Gemini.fullPrompt "s" "u").length "xy" (some 10) (some 5)) 2 h).1⟩

/-- Every key listed by firstOccurrences occurs in the input. -/
theorem firstOccurrences_subset (l : List String) :
    ∀ x ∈ StateStore.firstOccurrences l, x ∈ l := by
  induction l using StateStore.firstOccurrences.induct with
  | case1 =>
    intro x hx
    simp only [StateStore.firstOccurrences] at hx
    cases hx
  | case2 a l ih =>
    intro x hx
    simp only [StateStore.firstOccurrences] at hx
    rcases List.mem_cons.mp hx with rfl | hx2
    · exact List.mem_cons_self x _
    · have := ih x hx2
      rw [List.mem_filter] at this
      exact List.mem_cons_of_mem a this.1

/-- Every input element occurs among its firstOccurrences. -/
theorem firstOccurrences_complete (l : List String) :
    ∀ x ∈ l, x ∈ StateStore.firstOccurrences l := by
  induction l using StateStore.firstOccurrences.induct with
  | case1 => intro x hx; cases hx
  | case2 a l ih =>
    intro x hx
    simp only [StateStore.firstOccurrences]
    by_cases hxa : x = a
    · exact hxa ▸ List.mem_cons_self x _
    · rcases List.mem_cons.mp hx with rfl | hx2
      · exact List.mem_cons_self x _
      · refine List.mem_cons_of_mem a (ih x ?_)
        rw [List.mem_filter]
        exact ⟨hx2, by simp [hxa]⟩

/-- firstOccurrences lists each key exactly once. -/
theorem firstOccurrences_nodup (l : List String) :
    (StateStore.firstOccurrences l).Nodup := by
  induction l using StateStore.firstOccurrences.induct with
  | case1 => simp [StateStore.firstOccurrences]
  | case2 a l ih =>
    simp only [StateStore.firstOccurrences]
    rw [List.nodup_cons]
    refine ⟨?_, ih⟩
    intro hmem
    have := firstOccurrences_subset _ a hmem
    rw [List.mem_filter] at this
    simp at this

/-- Appending one element extends firstOccurrences exactly when the element
    is new. -/
theorem firstOccurrences_concat (l : List String) (a : String) :
    StateStore.firstOccurrences (l ++ [a]) =
      if a ∈ l then StateStore.firstOccurrences l
      else StateStore.firstOccurrences l ++ [a] := by
  induction l using StateStore.firstOccurrences.induct with
  | case1 => simp [StateStore.firstOccurrences]
  | case2 b l ih =>
    rw [List.cons_append]
    simp only [StateStore.firstOccurrences]
    rw [List.filter_append]
    by_cases hab : a = b
    · have hfa : [a].filter (fun c => !(c == b)) = [] := by simp [hab]
      rw [hfa, List.append_nil, if_pos (by rw [hab]; exact List.mem_cons_self b l)]
    · have hfa : [a].filter (fun c => !(c == b)) = [a] := by simp [hab]
      rw [hfa, ih]
      have hmem : a ∈ l.filter (fun c => !(c == b)) ↔ a ∈ l := by
        rw [List.mem_filter]
        simp [hab]
      by_cases hal : a ∈ l
      · rw [if_pos (hmem.mpr hal), if_pos (List.mem_cons_of_mem b hal)]
      · rw [if_neg (fun hc => hal (hmem.mp hc)), if_neg (by
          intro hc
          rcases List.mem_cons.mp hc with h1 | h1
          · exact hab h1
          · exact hal h1)]
        simp only [StateStore.firstOccurrences, List.cons_append]

/-- find? commutes with a key-preserving value update map. -/
theorem find?_map_upd (m : List (String × StateStore.FileEntry))
    (kk : String) (v : StateStore.FileEntry) (p : String) :
    ((m.map (fun q => if q.1 == kk then (q.1, v) else q)).find? (fun q => q.1 == p)) =
      (m.find? (fun q => q.1 == p)).map (fun q => if q.1 == kk then (q.1, v) else q) := by
  induction m with
  | nil => rfl
  | cons r rs ih =>
    rw [List.map_cons]
    simp only [List.find?]
    have hfst : (if r.1 == kk then (r.1, v) else r).1 = r.1 := by
      by_cases h : r.1 == kk <;> simp [h]
    rw [hfst]
    by_cases hp : (r.1 == p) = true
    · rw [hp]
      simp
    · rw [Bool.not_eq_true] at hp
      rw [hp]
      simp only [cond_false]
      exact ih

/-- find? over the values of a coherent keyed list agrees with find? over
    the keys. -/
theorem find?_map_snd (m : List (String × StateStore.FileEntry)) (p : String)
    (hco : ∀ q ∈ m, q.2.path = q.1) :
    (m.map Prod.snd).find? (fun f => f.path == p) =
      (m.find? (fun q => q.1 == p)).map Prod.snd := by
  induction m with
  | nil => rfl
  | cons r rs ih =>
    rw [List.map_cons]
    simp only [List.find?]
    have hco1 : r.2.path = r.1 := hco r (List.mem_cons_self r rs)
    rw [hco1]
    by_cases hp : (r.1 == p) = true
    · rw [hp]
      simp
    · rw [Bool.not_eq_true] at hp
      rw [hp]
      simp only [cond_false]
      exact ih fun q hq => hco q (List.mem_cons_of_mem r hq)


/-- One keyed upsert preserves the registry invariant: pairs stay coherent
    (value's path is its key), the key sequence is the first-occurrence
    order of the flat entry history, and lookup by key returns the last
    entry with that path. -/
theorem regUpsert_inv (m : List (String × StateStore.FileEntry))
    (flat : List StateStore.FileEntry) (e : StateStore.FileEntry)
    (hco : ∀ q ∈ m, q.2.path = q.1)
    (hkeys : m.map Prod.fst =
      StateStore.firstOccurrences (flat.map StateStore.FileEntry.path))
    (hlast : ∀ p, (m.find? (fun q => q.1 == p)).map Prod.snd =
      (flat.filter (fun f => f.path == p)).getLast?) :
    (∀ q ∈ StateStore.regUpsert m e, q.2.path = q.1)
    ∧ (StateStore.regUpsert m e).map Prod.fst =
        StateStore.firstOccurrences ((flat ++ [e]).map StateStore.FileEntry.path)
    ∧ ∀ p, ((StateStore.regUpsert m e).find? (fun q => q.1 == p)).map Prod.snd =
        ((flat ++ [e]).filter (fun f => f.path == p)).getLast? := by
  unfold StateStore.regUpsert StateStore.jsMapSet
  have hpaths : (flat ++ [e]).map StateStore.FileEntry.path =
      flat.map StateStore.FileEntry.path ++ [e.path] := by
    rw [List.map_append]
    rfl
  by_cases h : (m.any (fun q => q.1 == e.path)) = true
  · simp only [h, if_true]
    have hin : e.path ∈ flat.map StateStore.FileEntry.path := by
      rw [List.any_eq_true] at h
      obtain ⟨q, hq, hqk⟩ := h
      rw [beq_iff_eq] at hqk
      have hmm : e.path ∈ m.map Prod.fst := by
        rw [List.mem_map]
        exact ⟨q, hq, hqk⟩
      rw [hkeys] at hmm
      exact firstOccurrences_subset _ e.path hmm
    refine ⟨?_, ?_, ?_⟩
    · intro q hq
      rw [List.mem_map] at hq
      obtain ⟨q0, hq0, hq0e⟩ := hq
      by_cases hk : (q0.1 == e.path) = true
      · rw [show (if q0.1 == e.path then (q0.1, e) else q0) = (q0.1, e) by
            simp [hk]] at hq0e
        rw [← hq0e]
        rw [beq_iff_eq] at hk
        exact hk.symm
      · rw [show (if q0.1 == e.path then (q0.1, e) else q0) = q0 by
            simp [hk]] at hq0e
        rw [← hq0e]
        exact hco q0 hq0
    · have hfst : (m.map (fun q => if q.1 == e.path then (q.1, e) else q)).map Prod.fst
          = m.map Prod.fst := by
        rw [List.map_map]
        apply List.map_congr_left
        intro q hq
        by_cases hk : q.1 = e.path <;> simp [hk]
      rw [hfst, hkeys, hpaths, firstOccurrences_concat, if_pos hin]
    · intro p
      rw [find?_map_upd, List.filter_append]
      by_cases hp : (e.path == p) = true
      · have hfe : [e].filter (fun f => f.path == p) = [e] := by
          simp [List.filter, hp]
        rw [hfe, List.getLast?_concat]
        have hp2 : e.path = p := beq_iff_eq.mp hp
        cases hf : m.find? (fun q => q.1 == p) with
        | none =>
          rw [List.find?_eq_none] at hf
          rw [List.any_eq_true] at h
          obtain ⟨q, hq, hqk⟩ := h
          rw [hp2] at hqk
          exact absurd hqk (hf q hq)
        | some q0 =>
          have hq0k := @List.find?_some _ (fun q => q.1 == p) q0 m hf
          simp only [beq_iff_eq] at hq0k
          simp [hq0k.trans hp2.symm]
      · have hp2 : (e.path == p) = false := by
          rwa [Bool.not_eq_true] at hp
        have hfe : [e].filter (fun f => f.path == p) = [] := by
          simp [List.filter, hp2]
        rw [hfe, List.append_nil, ← hlast p]
        cases hf : m.find? (fun q => q.1 == p) with
        | none => rfl
        | some q0 =>
          have hq0k := @List.find?_some _ (fun q => q.1 == p) q0 m hf
          simp only [beq_iff_eq] at hq0k
          have hq0ne : q0.1 ≠ e.path := by
            intro hc
            rw [hc] at hq0k
            rw [hq0k] at hp2
            simp at hp2
          simp [hq0ne]
  · rw [Bool.not_eq_true] at h
    simp only [h, Bool.false_eq_true, if_false]
    have habs : ∀ q ∈ m, (q.1 == e.path) = false := by
      intro q hq
      have := (List.any_eq_false.mp h) q hq
      rwa [Bool.not_eq_true] at this
    have hnotin : e.path ∉ flat.map StateStore.FileEntry.path := by
      intro hc
      have hmem := firstOccurrences_complete _ e.path hc
      rw [← hkeys, List.mem_map] at hmem
      obtain ⟨q, hq, hqe⟩ := hmem
      have hb : (q.1 == e.path) = true := beq_iff_eq.mpr hqe
      rw [habs q hq] at hb
      exact Bool.false_ne_true hb
    refine ⟨?_, ?_, ?_⟩
    · intro q hq
      rcases List.mem_append.mp hq with hq | hq
      · exact hco q hq
      · rw [List.mem_singleton] at hq
        rw [hq]
    · rw [List.map_append, hkeys, hpaths, firstOccurrences_concat, if_neg hnotin]
      rfl
    · intro p
      rw [List.find?_append, List.filter_append]
      by_cases hp : (e.path == p) = true
      · have hp2 : e.path = p := beq_iff_eq.mp hp
        have hfnone : m.find? (fun q => q.1 == p) = none := by
          rw [List.find?_eq_none]
          intro x hx hcx
          rw [beq_iff_eq] at hcx
          have hb : (x.1 == e.path) = true := beq_iff_eq.mpr (by rw [hcx, ← hp2])
          rw [habs x hx] at hb
          exact Bool.false_ne_true hb
        have hfe : [(e.path, e)].find? (fun q => q.1 == p) = some (e.path, e) := by
          simp [List.find?, hp]
        have hfil : [e].filter (fun f => f.path == p) = [e] := by
          simp [List.filter, hp]
        rw [hfnone, hfe, hfil, List.getLast?_concat]
        rfl
      · have hp2 : (e.path == p) = false := by
          rwa [Bool.not_eq_true] at hp
        have hfe : [(e.path, e)].find? (fun q => q.1 == p) = none := by
          simp [List.find?, hp2]
        have hfil : [e].filter (fun f => f.path == p) = [] := by
          simp [List.filter, hp2]
        rw [hfe, hfil, List.append_nil]
        rw [Option.or_none]
        exact hlast p

/-- The canonical keyed map of a flat entry history satisfies the registry
    invariant. -/
theorem canon_inv (flat : List StateStore.FileEntry) :
    (∀ q ∈ StateStore.canon flat, q.2.path = q.1)
    ∧ (StateStore.canon flat).map Prod.fst =
        StateStore.firstOccurrences (flat.map StateStore.FileEntry.path)
    ∧ ∀ p, ((StateStore.canon flat).find? (fun q => q.1 == p)).map Prod.snd =
        (flat.filter (fun f => f.path == p)).getLast? := by
  induction flat using List.reverseRecOn with
  | nil =>
    refine ⟨?_, ?_, ?_⟩
    · intro q hq
      cases hq
    · simp [StateStore.canon, StateStore.firstOccurrences]
    · intro p
      rfl
  | append_singleton l e ih =>
    have hstep : StateStore.canon (l ++ [e]) =
        StateStore.regUpsert (StateStore.canon l) e := by
      unfold StateStore.canon
      rw [List.foldl_append]
      rfl
    rw [hstep]
    exact regUpsert_inv (StateStore.canon l) l e ih.1 ih.2.1 ih.2.2

/-- Rebuilding a Map from an association list with distinct keys returns
    the same list. -/
theorem jsMapSet_fold_of_nodup :
    ∀ (l m0 : List (String × StateStore.FileEntry)),
    ((m0 ++ l).map Prod.fst).Nodup →
    l.foldl (fun m q => StateStore.jsMapSet m q.1 q.2) m0 = m0 ++ l := by
  intro l
  induction l with
  | nil =>
    intro m0 h
    simp
  | cons q l ih =>
    intro m0 h
    rw [List.foldl_cons]
    have habs : (m0.any (fun r => r.1 == q.1)) = false := by
      rw [List.any_eq_false]
      intro r hr hc
      rw [beq_iff_eq] at hc
      rw [List.map_append] at h
      have hdisj := (List.nodup_append.mp h).2.2
      have h1 : r.1 ∈ m0.map Prod.fst := List.mem_map.mpr ⟨r, hr, rfl⟩
      have h2 : r.1 ∈ (q :: l).map Prod.fst := by
        rw [hc]
        exact List.mem_map.mpr ⟨q, List.mem_cons_self q l, rfl⟩
      exact hdisj h1 h2
    have hset : StateStore.jsMapSet m0 q.1 q.2 = m0 ++ [q] := by
      unfold StateStore.jsMapSet
      simp only [habs, Bool.false_eq_true, if_false]
    rw [hset]
    have hassoc : (m0 ++ [q]) ++ l = m0 ++ q :: l := by
      rw [List.append_assoc]
      rfl
    rw [ih (m0 ++ [q]) (by rw [hassoc]; exact h), hassoc]

/-- One reducer application on a canonical registry extends the canonical
    history by the incoming update array. -/
theorem fileRegistryReducer_canon_step (flat u : List StateStore.FileEntry) :
    StateStore.fileRegistryReducer ((StateStore.canon flat).map Prod.snd) (some u) =
      (StateStore.canon (flat ++ u)).map Prod.snd := by
  obtain ⟨hco, hkeys, _⟩ := canon_inv flat
  simp only [StateStore.fileRegistryReducer]
  have hpairs : ((StateStore.canon flat).map Prod.snd).map (fun f => (f.path, f)) =
      StateStore.canon flat := by
    rw [List.map_map]
    have hpt : ∀ q ∈ StateStore.canon flat,
        ((fun f => (f.path, f)) ∘ Prod.snd) q = id q := by
      intro q hq
      simp only [Function.comp_apply, id_eq, hco q hq]
    rw [List.map_congr_left hpt, List.map_id]
  rw [hpairs]
  have hnodup : ((StateStore.canon flat).map Prod.fst).Nodup := by
    rw [hkeys]
    exact firstOccurrences_nodup _
  have hid : StateStore.jsMapOfPairs (StateStore.canon flat) = StateStore.canon flat := by
    unfold StateStore.jsMapOfPairs
    have := jsMapSet_fold_of_nodup (StateStore.canon flat) [] (by simpa using hnodup)
    simpa using this
  rw [hid]
  have hfold : StateStore.canon (flat ++ u) =
      u.foldl (fun m e => StateStore.jsMapSet m e.path e) (StateStore.canon flat) := by
    unfold StateStore.canon StateStore.regUpsert
    rw [List.foldl_append]
  rw [hfold]

/-- The whole run of reducer applications equals the canonical keyed map of
    the flattened update history. -/
theorem applyAll_eq_canon (updates : List (List StateStore.FileEntry)) :
    StateStore.applyAll updates = (StateStore.canon updates.flatten).map Prod.snd := by
  suffices hgen : ∀ (us : List (List StateStore.FileEntry)) (flat : List StateStore.FileEntry),
      us.foldl (fun s u => StateStore.fileRegistryReducer s (some u))
        ((StateStore.canon flat).map Prod.snd) =
      (StateStore.canon (flat ++ us.flatten)).map Prod.snd by
    have := hgen updates []
    simpa [StateStore.applyAll, StateStore.canon] using this
  intro us
  induction us with
  | nil =>
    intro flat
    simp
  | cons u us ih =>
    intro flat
    rw [List.foldl_cons, fileRegistryReducer_canon_step flat u, ih (flat ++ u),
      List.flatten_cons, ← List.append_assoc]

/-- C8: folding any sequence of array updates through the fileRegistry
    reducer from the default empty registry yields a registry with exactly
    one entry per distinct path (no duplicate paths), listed in order of
    first appearance of the paths across the flattened updates, and lookup
    of any path returns the most recently applied entry for it. -/
theorem fileRegistry_keyed_upsert (updates : List (List StateStore.FileEntry)) :
    ((StateStore.applyAll updates).map StateStore.FileEntry.path).Nodup
    ∧ (StateStore.applyAll updates).map StateStore.FileEntry.path =
        StateStore.firstOccurrences (updates.flatten.map StateStore.FileEntry.path)
    ∧ ∀ p, (StateStore.applyAll updates).find? (fun f => f.path == p) =
        (updates.flatten.filter (fun f => f.path == p)).getLast? := by
  obtain ⟨hco, hkeys, hlast⟩ := canon_inv updates.flatten
  have happ := applyAll_eq_canon updates
  have hpath : (StateStore.applyAll updates).map StateStore.FileEntry.path =
      (StateStore.canon updates.flatten).map Prod.fst := by
    rw [happ, List.map_map]
    apply List.map_congr_left
    intro q hq
    simp only [Function.comp_apply]
    exact hco q hq
  refine ⟨?_, ?_, ?_⟩
  · rw [hpath, hkeys]
    exact firstOccurrences_nodup _
  · rw [hpath, hkeys]
  · intro p
    rw [happ, find?_map_snd _ p hco, hlast p]
